import Mathlib

/-
Verification of the pyTetris core state machine (pyTetris.py).

The Python source is shallowly embedded below: every `def` mirrors the
corresponding Python function or method.  Grid cells are modelled as `Nat`
(0 = empty; a nonzero colour code = filled — the source stores RGB tuples,
all of which are truthy, and only truthiness is ever inspected).  Python
ints are modelled as `Int` where they can go negative (piece coordinates)
and as `Nat` where they cannot (score, level, line counts).  The random
choice in `new_piece` is modelled by passing the freshly chosen `PieceKind`
explicitly as an oracle argument.  The pygame wall-clock timer (`last_fall`)
is presentation glue and is not part of the embedded state.
-/

namespace PyTetris

/-- Number of columns in the game grid (`COLUMNS = 10`). -/
def COLUMNS : Nat := 10

/-- Number of rows in the game grid (`ROWS = 20`). -/
def ROWS : Nat := 20

/-- The seven tetromino kinds (keys of the `SHAPES` dictionary). -/
inductive PieceKind
  | I | O | T | L | J | S | Z
deriving DecidableEq

/-- Base shape matrices, exactly the `SHAPES` dictionary of the source. -/
def SHAPES : PieceKind → List (List Nat)
  | .I => [[1, 1, 1, 1]]
  | .O => [[1, 1], [1, 1]]
  | .T => [[0, 1, 0], [1, 1, 1]]
  | .L => [[0, 0, 1], [1, 1, 1]]
  | .J => [[1, 0, 0], [1, 1, 1]]
  | .S => [[0, 1, 1], [1, 1, 0]]
  | .Z => [[1, 1, 0], [0, 1, 1]]

/-- Display colours (`COLORS`): the source maps each kind to an RGB tuple;
only truthiness of a stored cell is ever inspected, so we model each colour
as a distinct nonzero `Nat`. -/
def COLORS : PieceKind → Nat
  | .I => 1
  | .O => 2
  | .T => 3
  | .L => 4
  | .J => 5
  | .S => 6
  | .Z => 7

/-- Source `Tetromino._rotate_matrix`: rotate a 2D matrix 90 degrees clockwise.
Python: `[[shape[y][x] for y in range(len(shape)-1,-1,-1)] for x in range(len(shape[0]))]`. -/
def rotate_matrix (shape : List (List Nat)) : List (List Nat) :=
  (List.range (shape.headD []).length).map fun x =>
    ((List.range shape.length).reverse).map fun y => (shape.getD y []).getD x 0

/-- Source `Tetromino._get_rotations`: the list `[shape, r, r², r³]` produced by the
source's three-iteration loop applying `_rotate_matrix`. -/
def get_rotations (shape : List (List Nat)) : List (List (List Nat)) :=
  [shape,
   rotate_matrix shape,
   rotate_matrix (rotate_matrix shape),
   rotate_matrix (rotate_matrix (rotate_matrix shape))]

/-- A tetromino piece: grid position of the bounding-box top-left, the
kind, and the current rotation index.  The source also stores the
precomputed rotation list and the active matrix; both are functions of
`shape` and `rotation` and are recovered by `current_shape`. -/
structure Tetromino where
  x : Int
  y : Int
  shape : PieceKind
  rotation : Nat
deriving DecidableEq

/-- The active occupancy matrix `self.current_shape = self.shapes[self.rotation]`. -/
def current_shape (p : Tetromino) : List (List Nat) :=
  (get_rotations (SHAPES p.shape)).getD p.rotation []

/-- Source `Tetromino.rotate`: advance to the next rotation state
(`rotation = (rotation + 1) % len(shapes)`, and `len(shapes) = 4`). -/
def piece_rotate (p : Tetromino) : Tetromino :=
  { p with rotation := (p.rotation + 1) % 4 }

/-- The game board: a list of rows, each a list of cells. -/
abbrev Grid := List (List Nat)

/-- A fresh empty row `[0 for _ in range(COLUMNS)]`. -/
def emptyRow : List Nat := List.replicate COLUMNS 0

/-- Source `Tetris.new_piece` minus the random choice: `Tetromino(COLUMNS // 2 - 2, 0, shape)`. -/
def mkPiece (k : PieceKind) : Tetromino :=
  { x := (COLUMNS : Int) / 2 - 2, y := 0, shape := k, rotation := 0 }

/-- The game controller state (the mutable fields of the `Tetris` object,
minus the wall-clock timestamp `last_fall`). -/
structure TetrisState where
  grid : Grid
  cur : Tetromino
  next : Tetromino
  score : Nat
  level : Nat
  fall_speed : Int
  game_over : Bool
deriving DecidableEq

/-- Source `Tetris.__init__`, with the two random piece kinds passed explicitly. -/
def initState (k1 k2 : PieceKind) : TetrisState :=
  { grid := List.replicate ROWS emptyRow
    cur := mkPiece k1
    next := mkPiece k2
    score := 0
    level := 1
    fall_speed := 1000
    game_over := false }

/-- Source `Tetris.valid_move(piece, x, y)`: every occupied cell of the piece's
current shape, shifted by `(x, y)`, must be inside the horizontal bounds,
above the bottom, and (when its row is visible, `new_y >= 0`) land on an
empty grid cell. -/
def valid_move (grid : Grid) (piece : Tetromino) (x y : Int) : Bool :=
  (List.range (current_shape piece).length).all fun row =>
    (List.range ((current_shape piece).getD row []).length).all fun col =>
      if ((current_shape piece).getD row []).getD col 0 ≠ 0 then
        let nx : Int := piece.x + x + col
        let ny : Int := piece.y + y + row
        !(decide (nx < 0) || decide ((COLUMNS : Int) ≤ nx) ||
          decide ((ROWS : Int) ≤ ny) ||
          (decide (0 ≤ ny) &&
            decide ((grid.getD ny.toNat []).getD nx.toNat 0 ≠ 0)))
      else true

/-- Write colour `v` into grid cell `(y, x)` (`self.grid[y][x] = v`).
`List.set` leaves the grid unchanged on an out-of-range index. -/
def setCell (g : Grid) (y x : Nat) (v : Nat) : Grid :=
  g.set y ((g.getD y []).set x v)

/-- Inner loop of `Tetris.lock_piece` over one shape row: for each occupied
cell, abort with game over if its absolute row is negative, otherwise write
the colour.  Returns the grid as mutated so far and the abort flag. -/
def lockRowCells (g : Grid) (cells : List Nat) (y x0 : Int) (c0 : Nat)
    (color : Nat) : Grid × Bool :=
  match cells with
  | [] => (g, false)
  | cell :: rest =>
    if cell ≠ 0 then
      if y < 0 then (g, true)
      else lockRowCells (setCell g y.toNat (x0 + c0).toNat color) rest y x0
        (c0 + 1) color
    else lockRowCells g rest y x0 (c0 + 1) color

/-- Outer loop of `Tetris.lock_piece` over the shape rows. -/
def lockRows (g : Grid) (rows : List (List Nat)) (py px : Int) (r0 : Nat)
    (color : Nat) : Grid × Bool :=
  match rows with
  | [] => (g, false)
  | row :: rest =>
    match lockRowCells g row (py + r0) px 0 color with
    | (g', true) => (g', true)
    | (g', false) => lockRows g' rest py px (r0 + 1) color

/-- A row is complete when every cell is truthy (`all(self.grid[row])`). -/
def rowFull (r : List Nat) : Bool := r.all fun c => c ≠ 0

/-- The `for row in range(ROWS)` loop of `Tetris.clear_lines`: `i` is the
current row index, `fuel` the remaining iterations, `acc` the running count.
A complete row is deleted and an empty row is inserted at index 0. -/
def clearFrom (g : Grid) (i fuel acc : Nat) : Grid × Nat :=
  match fuel with
  | 0 => (g, acc)
  | f + 1 =>
    if rowFull (g.getD i []) then
      clearFrom (emptyRow :: g.eraseIdx i) (i + 1) f (acc + 1)
    else
      clearFrom g (i + 1) f acc

/-- Source `Tetris.clear_lines`: clear completed lines, returning the new grid and
the number of lines cleared. -/
def clear_lines (g : Grid) : Grid × Nat :=
  clearFrom g 0 ROWS 0

/-- The `line_scores` table `\x7b0:0, 1:100, 2:300, 3:500, 4:800\x7d`.  The
Python dict lookup raises on other keys; callers only pass 0..4, and we
default to 0 outside the table. -/
def line_scores : Nat → Nat
  | 0 => 0
  | 1 => 100
  | 2 => 300
  | 3 => 500
  | 4 => 800
  | _ => 0

/-- Source `Tetris.update_score(lines)`: add `line_scores[lines] * level` to the
score; if the new score's thousands now strictly exceed the level, bump the
level once and recompute the fall speed from the bumped level. -/
def update_score (s : TetrisState) (lines : Nat) : TetrisState :=
  let s1 := { s with score := s.score + line_scores lines * s.level }
  if s1.score / 1000 > s1.level then
    { s1 with
      level := s1.level + 1
      fall_speed := max 100 (1000 - ((s1.level + 1 : Nat) : Int) * 100) }
  else s1

/-- Source `Tetris.lock_piece`, with the random kind of the freshly spawned
`next_piece` passed explicitly as `k`. -/
def lock_piece (s : TetrisState) (k : PieceKind) : TetrisState :=
  match lockRows s.grid (current_shape s.cur) s.cur.y s.cur.x 0
      (COLORS s.cur.shape) with
  | (g, true) => { s with grid := g, game_over := true }
  | (g, false) =>
    let res := clear_lines g
    let s' := update_score { s with grid := res.1 } res.2
    { s' with cur := s.next, next := mkPiece k }

/-- Source `Tetris.move_down`: descend one row if possible, else lock. -/
def move_down (s : TetrisState) (k : PieceKind) : TetrisState :=
  if valid_move s.grid s.cur 0 1 then
    { s with cur := { s.cur with y := s.cur.y + 1 } }
  else lock_piece s k

/-- The `while self.valid_move(piece, 0, 1)` loop of `Tetris.hard_drop`,
made structurally recursive on an explicit fuel; returns the final origin
row. -/
def dropLoop (g : Grid) (p : Tetromino) : Nat → Int
  | 0 => p.y
  | f + 1 =>
    if valid_move g p 0 1 then dropLoop g { p with y := p.y + 1 } f
    else p.y

/-- Source `Tetris.hard_drop`: drop to the lowest reachable row, then lock.  The
fuel `(20 - y).toNat` dominates the number of loop iterations: every real
shape has an occupied cell, which forces invalidity once the piece reaches
the bottom (proved below). -/
def hard_drop (s : TetrisState) (k : PieceKind) : TetrisState :=
  let y' := dropLoop s.grid s.cur ((20 - s.cur.y).toNat)
  lock_piece { s with cur := { s.cur with y := y' } } k

/-- Source `Tetris.move_horizontal(dx)`: shift horizontally if valid, else no-op. -/
def move_horizontal (s : TetrisState) (dx : Int) : TetrisState :=
  if valid_move s.grid s.cur dx 0 then
    { s with cur := { s.cur with x := s.cur.x + dx } }
  else s

/-- Source `Tetris.rotate`: advance the rotation, reverting it if the rotated
piece collides (the source restores `rotation` and `current_shape`, which
here is the identity on the state). -/
def game_rotate (s : TetrisState) : TetrisState :=
  let p' := piece_rotate s.cur
  if valid_move s.grid p' 0 0 then { s with cur := p' } else s

/-- The keys the main loop dispatches on. -/
inductive Key
  | left | right | down | up | space | other
deriving DecidableEq

/-- The `KEYDOWN` branch of `main`'s event loop: any key resets the game
when it is over; otherwise the key is dispatched to the controller.  `k1`,
`k2` are the random kinds of a reset's initial pieces and `kd` the random
kind spawned by a lock during `move_down`/`hard_drop`. -/
def handle_keydown (s : TetrisState) (key : Key) (k1 k2 kd : PieceKind) :
    TetrisState :=
  if s.game_over then initState k1 k2
  else
    match key with
    | .left => move_horizontal s (-1)
    | .right => move_horizontal s 1
    | .down => move_down s kd
    | .up => game_rotate s
    | .space => hard_drop s kd
    | .other => s

/-- States reachable by the main loop: the initial state, the five commands
dispatched while the game is not over (including the automatic fall, which
is `move_down`), and the reset performed on a key press after game over.
Random piece kinds are universally quantified oracle arguments. -/
inductive Reachable : TetrisState → Prop
  | init (k1 k2 : PieceKind) : Reachable (initState k1 k2)
  | left {s} : Reachable s → s.game_over = false →
      Reachable (move_horizontal s (-1))
  | right {s} : Reachable s → s.game_over = false →
      Reachable (move_horizontal s 1)
  | down {s} (k : PieceKind) : Reachable s → s.game_over = false →
      Reachable (move_down s k)
  | up {s} : Reachable s → s.game_over = false →
      Reachable (game_rotate s)
  | space {s} (k : PieceKind) : Reachable s → s.game_over = false →
      Reachable (hard_drop s k)
  | reset {s} (k1 k2 : PieceKind) : Reachable s → s.game_over = true →
      Reachable (initState k1 k2)

/-! ### General helper lemmas -/

theorem getD_ne_default_imp_lt {α : Type} (l : List α) (i : Nat) (d : α)
    (h : l.getD i d ≠ d) : i < l.length := by
  by_contra hge
  push_neg at hge
  exact h (List.getD_eq_default l d hge)

/-- Characterization of `valid_move` as a universally quantified cell
condition.  Out-of-range indices make the occupancy hypothesis false, so the
quantifiers may range over all of `Nat`. -/
theorem valid_move_true_iff (g : Grid) (p : Tetromino) (dx dy : Int) :
    valid_move g p dx dy = true ↔
      ∀ r c : Nat, ((current_shape p).getD r []).getD c 0 ≠ 0 →
        (0 ≤ p.x + dx + (c : Int) ∧ p.x + dx + (c : Int) < (COLUMNS : Int) ∧
         p.y + dy + (r : Int) < (ROWS : Int) ∧
         (0 ≤ p.y + dy + (r : Int) →
           (g.getD (p.y + dy + (r : Int)).toNat []).getD
             (p.x + dx + (c : Int)).toNat 0 = 0)) := by
  unfold valid_move
  simp only [List.all_eq_true, List.mem_range, ne_eq, decide_not,
    Bool.not_eq_true']
  constructor
  · intro h r c hocc
    have hr : r < (current_shape p).length := by
      apply getD_ne_default_imp_lt
      intro hrow
      rw [hrow] at hocc
      exact hocc rfl
    have hc : c < ((current_shape p).getD r []).length :=
      getD_ne_default_imp_lt _ _ _ hocc
    have hb := h r hr c hc
    rw [if_pos hocc] at hb
    simp only [Bool.not_eq_true', Bool.or_eq_false_iff, Bool.and_eq_false_iff,
      decide_eq_false_iff_not, Bool.not_eq_false', decide_eq_true_eq,
      not_lt, not_le] at hb
    obtain ⟨⟨⟨h1, h2⟩, h3⟩, h4⟩ := hb
    refine ⟨by omega, by omega, by omega, fun hy => ?_⟩
    rcases h4 with h4 | h4
    · omega
    · exact h4
  · intro h r hr c hc
    by_cases hocc : ((current_shape p).getD r []).getD c 0 = 0
    · rw [if_neg (by simpa using hocc)]
    · rw [if_pos hocc]
      obtain ⟨h1, h2, h3, h4⟩ := h r c hocc
      simp only [Bool.not_eq_true', Bool.or_eq_false_iff, Bool.and_eq_false_iff,
        decide_eq_false_iff_not, Bool.not_eq_false', decide_eq_true_eq,
        not_lt, not_le]
      refine ⟨⟨⟨by omega, by omega⟩, by omega⟩, ?_⟩
      by_cases hy : 0 ≤ p.y + dy + (r : Int)
      · exact Or.inr (h4 hy)
      · exact Or.inl (by omega)

/-- Negated characterization: `valid_move` returns `false` exactly when some
occupied cell violates one of the placement conditions. -/
theorem valid_move_false_iff (g : Grid) (p : Tetromino) (dx dy : Int) :
    valid_move g p dx dy = false ↔
      ∃ r c : Nat, ((current_shape p).getD r []).getD c 0 ≠ 0 ∧
        (p.x + dx + (c : Int) < 0 ∨ (COLUMNS : Int) ≤ p.x + dx + (c : Int) ∨
         (ROWS : Int) ≤ p.y + dy + (r : Int) ∨
         (0 ≤ p.y + dy + (r : Int) ∧
           (g.getD (p.y + dy + (r : Int)).toNat []).getD
             (p.x + dx + (c : Int)).toNat 0 ≠ 0)) := by
  rw [← Bool.not_eq_true, valid_move_true_iff]
  push_neg
  constructor
  · rintro ⟨r, c, hocc, hbad⟩
    refine ⟨r, c, hocc, ?_⟩
    by_cases h1 : p.x + dx + (c : Int) < 0
    · exact Or.inl h1
    by_cases h2 : (COLUMNS : Int) ≤ p.x + dx + (c : Int)
    · exact Or.inr (Or.inl h2)
    by_cases h3 : (ROWS : Int) ≤ p.y + dy + (r : Int)
    · exact Or.inr (Or.inr (Or.inl h3))
    refine Or.inr (Or.inr (Or.inr ?_))
    have h4 := hbad (by omega) (by omega) (by omega)
    obtain ⟨hy, hcell⟩ := h4
    exact ⟨hy, hcell⟩
  · rintro ⟨r, c, hocc, hbad⟩
    refine ⟨r, c, hocc, ?_⟩
    intro h1 h2 h3
    rcases hbad with h | h | h | h
    · omega
    · omega
    · omega
    · exact h

/-! ### C1: characterization of valid_move -/

/-- C1: for every piece kind, rotation state, position and offset,
`valid_move` returns `false` exactly when some occupied cell `(r, c)` of the
current shape has absolute `x < 0`, `x ≥ 10`, `y ≥ 20`, or lands on a filled
grid cell with `y ≥ 0`; cells with `y < 0` never cause rejection, and it
returns `true` exactly when every occupied cell passes all checks. -/
theorem c1_valid_move_characterization (k : PieceKind) (rot : Nat)
    (px py : Int) (g : Grid) (dx dy : Int) :
    (valid_move g ⟨px, py, k, rot⟩ dx dy = false ↔
      ∃ r c : Nat,
        ((current_shape ⟨px, py, k, rot⟩).getD r []).getD c 0 ≠ 0 ∧
        (px + dx + (c : Int) < 0 ∨ 10 ≤ px + dx + (c : Int) ∨
         20 ≤ py + dy + (r : Int) ∨
         (0 ≤ py + dy + (r : Int) ∧
           (g.getD (py + dy + (r : Int)).toNat []).getD
             (px + dx + (c : Int)).toNat 0 ≠ 0))) ∧
    (valid_move g ⟨px, py, k, rot⟩ dx dy = true ↔
      ∀ r c : Nat,
        ((current_shape ⟨px, py, k, rot⟩).getD r []).getD c 0 ≠ 0 →
        (0 ≤ px + dx + (c : Int) ∧ px + dx + (c : Int) < 10 ∧
         py + dy + (r : Int) < 20 ∧
         (0 ≤ py + dy + (r : Int) →
           (g.getD (py + dy + (r : Int)).toNat []).getD
             (px + dx + (c : Int)).toNat 0 = 0))) := by
  constructor
  · have h := valid_move_false_iff g ⟨px, py, k, rot⟩ dx dy
    norm_num [COLUMNS, ROWS] at h ⊢
    exact h
  · have h := valid_move_true_iff g ⟨px, py, k, rot⟩ dx dy
    norm_num [COLUMNS, ROWS] at h ⊢
    exact h

/-! ### C2: update_score -/

/-- C2: `update_score` adds exactly the table value times the current level
to the score; afterwards the level increases by exactly one iff the new
score's thousands strictly exceed the old level, and on a level-up the fall
interval is recomputed as `max 100 (1000 - newLevel * 100)`; without a
level-up both level and fall interval are unchanged. -/
theorem c2_update_score_correct (s : TetrisState) (n : Nat)
    (hn : n ≤ 4) (hl : 1 ≤ s.level) :
    (update_score s n).score =
        s.score + [0, 100, 300, 500, 800].getD n 0 * s.level ∧
    ((update_score s n).level = s.level + 1 ↔
        s.level < (update_score s n).score / 1000) ∧
    (s.level < (update_score s n).score / 1000 →
        (update_score s n).fall_speed =
          max 100 (1000 - ((s.level + 1 : Nat) : Int) * 100)) ∧
    (¬ s.level < (update_score s n).score / 1000 →
        (update_score s n).level = s.level ∧
        (update_score s n).fall_speed = s.fall_speed) := by
  have htab : line_scores n = [0, 100, 300, 500, 800].getD n 0 := by
    interval_cases n <;> rfl
  rw [← htab]
  unfold update_score
  dsimp only
  split
  next hc =>
    exact ⟨rfl, ⟨fun _ => hc, fun _ => rfl⟩, fun _ => rfl,
      fun hnc => absurd hc hnc⟩
  next hc =>
    dsimp only
    exact ⟨rfl, ⟨fun h => absurd h (by omega), fun h => absurd h hc⟩,
      fun h => absurd h hc, fun _ => ⟨rfl, rfl⟩⟩

/-- Concrete instance of C2 at the spec's boundary example: score 950,
level 1, one line cleared, giving score 1050 and no level-up. -/
def stateScore950 : TetrisState := { initState .O .O with score := 950 }

/-- Witness for C2: the theorem applied at score 950, level 1, one line. -/
theorem c2_update_score_witness :
    (update_score stateScore950 1).score =
        stateScore950.score + [0, 100, 300, 500, 800].getD 1 0 *
          stateScore950.level ∧
    ((update_score stateScore950 1).level = stateScore950.level + 1 ↔
        stateScore950.level < (update_score stateScore950 1).score / 1000) ∧
    (stateScore950.level < (update_score stateScore950 1).score / 1000 →
        (update_score stateScore950 1).fall_speed =
          max 100 (1000 - ((stateScore950.level + 1 : Nat) : Int) * 100)) ∧
    (¬ stateScore950.level < (update_score stateScore950 1).score / 1000 →
        (update_score stateScore950 1).level = stateScore950.level ∧
        (update_score stateScore950 1).fall_speed =
          stateScore950.fall_speed) :=
  c2_update_score_correct stateScore950 1 (by norm_num) (by norm_num [stateScore950, initState])

/-! ### C5: rotation closure -/

/-- C5: for each of the 7 base shapes, applying the clockwise rotation four
times yields the base shape again, and rotating the last precomputed
rotation state returns to the first (the base shape): the rotation list
cycles. -/
theorem c5_rotation_closure (k : PieceKind) :
    rotate_matrix (rotate_matrix (rotate_matrix (rotate_matrix (SHAPES k))))
        = SHAPES k ∧
    rotate_matrix ((get_rotations (SHAPES k)).getD 3 []) =
        (get_rotations (SHAPES k)).getD 0 [] := by
  cases k <;> exact ⟨rfl, rfl⟩

/-! ### C6: rotate_matrix dimensions and element formula -/

theorem getD_map_range {α : Type} (n i : Nat) (f : Nat → α) (d : α)
    (h : i < n) : ((List.range n).map f).getD i d = f i := by
  rw [List.getD_eq_getElem _ _ (by simpa using h)]
  simp

theorem getD_map_range_reverse {α : Type} (n i : Nat) (f : Nat → α) (d : α)
    (h : i < n) :
    (((List.range n).reverse).map f).getD i d = f (n - 1 - i) := by
  rw [List.getD_eq_getElem _ _ (by simpa using h)]
  simp [List.getElem_reverse]

/-- C6 counterexample: on the I base shape `[[1,1,1,1]]` (1 row, 4 columns)
the claim's formula — output `(r, c)` equals input `(C-1-c, r)` with `C` the
number of input COLUMNS — fails at `(0, 0)`: the output cell is `1` but the
input has no row `C-1 = 3` (the formula must use the input ROW count). -/
theorem c6_counterexample :
    ¬ (((rotate_matrix (SHAPES .I)).getD 0 []).getD 0 0 =
        ((SHAPES .I).getD (((SHAPES .I).headD []).length - 1 - 0) []).getD
          0 0) := by decide

/-- C6 amended: for every rectangular input matrix with `R` rows and `C`
columns, `rotate_matrix` produces `C` rows of `R` columns each, and the
output element at `(r, c)` equals the input element at `(R - 1 - c, r)` —
with `R` the input ROW count, not the column count the claim states. -/
theorem c6_rotate_matrix_spec (m : List (List Nat)) (R C : Nat)
    (hne : m ≠ []) (hR : m.length = R) (hC : (m.headD []).length = C)
    (hrect : ∀ row ∈ m, row.length = C) :
    (rotate_matrix m).length = C ∧
    (∀ row ∈ rotate_matrix m, row.length = R) ∧
    (∀ r c : Nat, r < C → c < R →
      ((rotate_matrix m).getD r []).getD c 0 =
        (m.getD (R - 1 - c) []).getD r 0) := by
  refine ⟨by rw [rotate_matrix]; rw [List.length_map, List.length_range]; exact hC, ?_, ?_⟩
  · intro row hrow
    rw [rotate_matrix, List.mem_map] at hrow
    obtain ⟨x, _, hx⟩ := hrow
    rw [← hx]
    simpa using hR
  · intro r c hr hc
    rw [rotate_matrix, getD_map_range _ _ _ _ (by omega : r < (m.headD []).length),
      getD_map_range_reverse _ _ _ _ (by omega : c < m.length), hR]

/-- Witness for C6 amended: the T base shape (2 rows, 3 columns) rotated,
checked at output cell `(0, 1)`. -/
theorem c6_rotate_matrix_witness :
    (rotate_matrix (SHAPES .T)).length = 3 ∧
    (∀ row ∈ rotate_matrix (SHAPES .T), row.length = 2) ∧
    (∀ r c : Nat, r < 3 → c < 2 →
      ((rotate_matrix (SHAPES .T)).getD r []).getD c 0 =
        ((SHAPES .T).getD (2 - 1 - c) []).getD r 0) :=
  c6_rotate_matrix_spec (SHAPES .T) 2 3 (by decide) (by decide) (by decide)
    (by decide)

/-! ### C4: lock_piece aborts with an untouched grid when a cell is above
the visible area -/

theorem lockRowCells_nil (g : Grid) (y x0 : Int) (c0 color : Nat) :
    lockRowCells g [] y x0 c0 color = (g, false) := rfl

theorem lockRowCells_cons (g : Grid) (a : Nat) (rest : List Nat)
    (y x0 : Int) (c0 color : Nat) :
    lockRowCells g (a :: rest) y x0 c0 color =
      if a ≠ 0 then
        if y < 0 then (g, true)
        else lockRowCells (setCell g y.toNat (x0 + c0).toNat color) rest y x0
          (c0 + 1) color
      else lockRowCells g rest y x0 (c0 + 1) color := rfl

theorem lockRows_cons (g : Grid) (row : List Nat) (rest : List (List Nat))
    (py px : Int) (r0 color : Nat) :
    lockRows g (row :: rest) py px r0 color =
      match lockRowCells g row (py + r0) px 0 color with
      | (g', true) => (g', true)
      | (g', false) => lockRows g' rest py px (r0 + 1) color := rfl

/-- A shape row with no occupied cell writes nothing and does not abort. -/
theorem lockRowCells_all_zero (g : Grid) (cells : List Nat) (y x0 : Int)
    (c0 color : Nat) (h : ∀ c, cells.getD c 0 = 0) :
    lockRowCells g cells y x0 c0 color = (g, false) := by
  induction cells generalizing c0 with
  | nil => rfl
  | cons a rest ih =>
    have ha : a = 0 := by simpa using h 0
    rw [lockRowCells_cons, if_neg (by simp [ha])]
    exact ih (c0 + 1) fun c => by simpa using h (c + 1)

/-- A shape row at a negative absolute row with some occupied cell aborts
before writing anything. -/
theorem lockRowCells_blocked (g : Grid) (cells : List Nat) (y x0 : Int)
    (c0 color : Nat) (hy : y < 0) (h : ∃ c, cells.getD c 0 ≠ 0) :
    lockRowCells g cells y x0 c0 color = (g, true) := by
  induction cells generalizing c0 with
  | nil =>
    obtain ⟨c, hc⟩ := h
    exact absurd rfl hc
  | cons a rest ih =>
    by_cases ha : a = 0
    · rw [lockRowCells_cons, if_neg (by simp [ha])]
      apply ih (c0 + 1)
      obtain ⟨c, hc⟩ := h
      cases c with
      | zero => exact absurd ha (by simpa using hc)
      | succ c' => exact ⟨c', by simpa using hc⟩
    · rw [lockRowCells_cons, if_pos ha, if_pos hy]

/-- If some occupied cell of the remaining rows lies above the visible
area, the whole locking pass aborts with the grid exactly as given. -/
theorem lockRows_blocked (rows : List (List Nat)) (g : Grid) (py px : Int)
    (r0 color : Nat)
    (h : ∃ r c : Nat, (rows.getD r []).getD c 0 ≠ 0 ∧
          py + ((r0 + r : Nat) : Int) < 0) :
    lockRows g rows py px r0 color = (g, true) := by
  induction rows generalizing g r0 with
  | nil =>
    obtain ⟨r, c, hocc, _⟩ := h
    exact absurd rfl hocc
  | cons row rest ih =>
    by_cases hrow : ∃ c, row.getD c 0 ≠ 0
    · have hneg : py + (r0 : Int) < 0 := by
        obtain ⟨r, c, _, hlt⟩ := h
        have : (r0 : Int) ≤ ((r0 + r : Nat) : Int) := by push_cast; omega
        omega
      rw [lockRows_cons, lockRowCells_blocked g row (py + r0) px 0 color hneg
        hrow]
    · push_neg at hrow
      rw [lockRows_cons,
        lockRowCells_all_zero g row (py + r0) px 0 color fun c => by
          by_cases hcl : c < row.length
          · exact hrow c
          · exact List.getD_eq_default _ _ (by omega)]
      apply ih
      obtain ⟨r, c, hocc, hlt⟩ := h
      cases r with
      | zero => exact absurd (hrow c) (by simpa using hocc)
      | succ r' =>
        refine ⟨r', c, by simpa using hocc, ?_⟩
        have : ((r0 + 1 + r' : Nat) : Int) = ((r0 + (r' + 1) : Nat) : Int) := by
          push_cast; omega
        omega

/-- C4: whenever some occupied cell of the current piece has absolute row
`y < 0`, `lock_piece` sets the game-over flag and leaves the board grid
completely unchanged — the abort happens before any cell is written,
because shape cells are visited top row first and the occupied row with
minimal index already lies above the visible area. -/
theorem c4_lock_piece_spawn_blocked (s : TetrisState) (k : PieceKind)
    (h : ∃ r c : Nat, ((current_shape s.cur).getD r []).getD c 0 ≠ 0 ∧
          s.cur.y + (r : Int) < 0) :
    (lock_piece s k).game_over = true ∧ (lock_piece s k).grid = s.grid := by
  have hlock : lockRows s.grid (current_shape s.cur) s.cur.y s.cur.x 0
      (COLORS s.cur.shape) = (s.grid, true) := by
    apply lockRows_blocked
    obtain ⟨r, c, hocc, hlt⟩ := h
    exact ⟨r, c, hocc, by push_cast; omega⟩
  unfold lock_piece
  rw [hlock]
  exact ⟨rfl, rfl⟩

/-- Concrete state for the C4 witness: a T piece one row above the top of
an empty board. -/
def stateAboveTop : TetrisState :=
  { grid := List.replicate ROWS emptyRow
    cur := { x := 3, y := -1, shape := .T, rotation := 0 }
    next := mkPiece .O
    score := 0
    level := 1
    fall_speed := 1000
    game_over := false }

/-- Witness for C4: the theorem applied to the concrete blocked state. -/
theorem c4_lock_piece_witness :
    (lock_piece stateAboveTop .I).game_over = true ∧
    (lock_piece stateAboveTop .I).grid = stateAboveTop.grid :=
  c4_lock_piece_spawn_blocked stateAboveTop .I ⟨0, 1, by decide, by decide⟩

/-! ### C3: clearing a board whose rows 3 and 7 are full -/

/-- C3: on any 20-row board where exactly the rows at indices 3 and 7 are
complete, `clear_lines` returns 2, and the new board is two empty rows on
top of the remaining rows in their original relative order. -/
theorem c3_clear_lines_rows_3_7
    (r0 r1 r2 r3 r4 r5 r6 r7 r8 r9 r10 r11 r12 r13 r14 r15 r16 r17 r18 r19 :
      List Nat)
    (h3 : rowFull r3 = true) (h7 : rowFull r7 = true)
    (h0 : rowFull r0 = false) (h1 : rowFull r1 = false)
    (h2 : rowFull r2 = false) (h4 : rowFull r4 = false)
    (h5 : rowFull r5 = false) (h6 : rowFull r6 = false)
    (h8 : rowFull r8 = false) (h9 : rowFull r9 = false)
    (h10 : rowFull r10 = false) (h11 : rowFull r11 = false)
    (h12 : rowFull r12 = false) (h13 : rowFull r13 = false)
    (h14 : rowFull r14 = false) (h15 : rowFull r15 = false)
    (h16 : rowFull r16 = false) (h17 : rowFull r17 = false)
    (h18 : rowFull r18 = false) (h19 : rowFull r19 = false) :
    clear_lines [r0, r1, r2, r3, r4, r5, r6, r7, r8, r9, r10, r11, r12, r13,
        r14, r15, r16, r17, r18, r19] =
      ([emptyRow, emptyRow, r0, r1, r2, r4, r5, r6, r8, r9, r10, r11, r12,
        r13, r14, r15, r16, r17, r18, r19], 2) := by
  simp [clear_lines, ROWS, clearFrom, h0, h1, h2, h3, h4, h5, h6, h7, h8, h9,
    h10, h11, h12, h13, h14, h15, h16, h17, h18, h19]

/-- A completely filled row of width 10. -/
def fullRow10 : List Nat := List.replicate COLUMNS 1

/-- A width-10 row with one empty cell. -/
def partialRow10 : List Nat := 0 :: List.replicate 9 1

/-- Witness for C3: the theorem applied to a concrete board with exactly
rows 3 and 7 complete. -/
theorem c3_clear_lines_witness :
    clear_lines [partialRow10, partialRow10, partialRow10, fullRow10,
        partialRow10, partialRow10, partialRow10, fullRow10, partialRow10,
        partialRow10, partialRow10, partialRow10, partialRow10, partialRow10,
        partialRow10, partialRow10, partialRow10, partialRow10, partialRow10,
        partialRow10] =
      ([emptyRow, emptyRow, partialRow10, partialRow10, partialRow10,
        partialRow10, partialRow10, partialRow10, partialRow10, partialRow10,
        partialRow10, partialRow10, partialRow10, partialRow10, partialRow10,
        partialRow10, partialRow10, partialRow10, partialRow10,
        partialRow10], 2) :=
  c3_clear_lines_rows_3_7 partialRow10 partialRow10 partialRow10 fullRow10
    partialRow10 partialRow10 partialRow10 fullRow10 partialRow10
    partialRow10 partialRow10 partialRow10 partialRow10 partialRow10
    partialRow10 partialRow10 partialRow10 partialRow10 partialRow10
    partialRow10 (by decide) (by decide) (by decide) (by decide) (by decide)
    (by decide) (by decide) (by decide) (by decide) (by decide) (by decide)
    (by decide) (by decide) (by decide) (by decide) (by decide) (by decide)
    (by decide) (by decide) (by decide)

/-! ### C10: a single clear_lines pass removes every complete row -/

theorem clearFrom_succ (g : Grid) (i f acc : Nat) :
    clearFrom g i (f + 1) acc =
      if rowFull (g.getD i []) then
        clearFrom (emptyRow :: g.eraseIdx i) (i + 1) f (acc + 1)
      else clearFrom g (i + 1) f acc := rfl

theorem getD_eraseIdx_of_lt {α : Type} (l : List α) (i j : Nat) (d : α)
    (h : j < i) : (l.eraseIdx i).getD j d = l.getD j d := by
  induction l generalizing i j with
  | nil => rfl
  | cons a t ih =>
    cases i with
    | zero => omega
    | succ i' =>
      cases j with
      | zero => rfl
      | succ j' => simpa using ih i' j' (by omega)

/-- Invariant of the clearing loop: the grid keeps its length, every row at
an index already processed is not complete, and every row of the result is
either an original row or a fresh empty row. -/
theorem clearFrom_invariant (fuel : Nat) :
    ∀ (g : Grid) (i acc : Nat), i + fuel ≤ g.length →
      (∀ j, j < i → rowFull (g.getD j []) = false) →
      (clearFrom g i fuel acc).1.length = g.length ∧
      (∀ j, j < i + fuel →
        rowFull ((clearFrom g i fuel acc).1.getD j []) = false) ∧
      (∀ r, r ∈ (clearFrom g i fuel acc).1 → r ∈ g ∨ r = emptyRow) := by
  induction fuel with
  | zero =>
    intro g i acc _ hpre
    exact ⟨rfl, fun j hj => hpre j (by omega), fun r hr => Or.inl hr⟩
  | succ f ih =>
    intro g i acc hlen hpre
    rw [clearFrom_succ]
    by_cases hful : rowFull (g.getD i []) = true
    · rw [if_pos hful]
      have hi : i < g.length := by omega
      have hlen1 : (emptyRow :: g.eraseIdx i).length = g.length := by
        rw [List.length_cons, List.length_eraseIdx_of_lt hi]
        omega
      have hpre1 : ∀ j, j < i + 1 →
          rowFull ((emptyRow :: g.eraseIdx i).getD j []) = false := by
        intro j hj
        cases j with
        | zero =>
          rw [List.getD_cons_zero]
          decide
        | succ j' =>
          rw [List.getD_cons_succ, getD_eraseIdx_of_lt _ _ _ _ (by omega)]
          exact hpre j' (by omega)
      obtain ⟨ihlen, ihpre, ihmem⟩ :=
        ih (emptyRow :: g.eraseIdx i) (i + 1) (acc + 1) (by omega) hpre1
      refine ⟨by rw [ihlen, hlen1], fun j hj => ihpre j (by omega),
        fun r hr => ?_⟩
      rcases ihmem r hr with hr' | hr'
      · rcases List.mem_cons.1 hr' with hr'' | hr''
        · exact Or.inr hr''
        · exact Or.inl (List.mem_of_mem_eraseIdx hr'')
      · exact Or.inr hr'
    · rw [if_neg hful]
      have hful' : rowFull (g.getD i []) = false := by
        simpa using hful
      have hpre1 : ∀ j, j < i + 1 → rowFull (g.getD j []) = false := by
        intro j hj
        by_cases hji : j < i
        · exact hpre j hji
        · have : j = i := by omega
          rw [this]
          exact hful'
      obtain ⟨ihlen, ihpre, ihmem⟩ := ih g (i + 1) acc (by omega) hpre1
      exact ⟨ihlen, fun j hj => ihpre j (by omega), ihmem⟩

/-- If no row below `i + fuel` is complete, the clearing loop is the
identity. -/
theorem clearFrom_no_full (fuel : Nat) :
    ∀ (g : Grid) (i acc : Nat),
      (∀ j, j < i + fuel → rowFull (g.getD j []) = false) →
      clearFrom g i fuel acc = (g, acc) := by
  induction fuel with
  | zero => intro g i acc _; rfl
  | succ f ih =>
    intro g i acc h
    rw [clearFrom_succ, if_neg (by rw [h i (by omega)]; simp)]
    exact ih g (i + 1) acc fun j hj => h j (by omega)

/-- C10: after `clear_lines` the board has no complete row, so a second
call returns 0 and leaves it unchanged; the board still has 20 rows of 10
cells each.  The single forward pass catches every complete row because
rows below a deleted row keep their index. -/
theorem c10_clear_lines_complete (g : Grid) (h20 : g.length = 20)
    (hw : ∀ r ∈ g, r.length = 10) :
    (∀ r ∈ (clear_lines g).1, rowFull r = false) ∧
    clear_lines (clear_lines g).1 = ((clear_lines g).1, 0) ∧
    (clear_lines g).1.length = 20 ∧
    (∀ r ∈ (clear_lines g).1, r.length = 10) := by
  have hR : ROWS = 20 := rfl
  obtain ⟨hlen, hnofull, hmem⟩ :=
    clearFrom_invariant ROWS g 0 0 (by omega) (fun j hj => by omega)
  have hlen20 : (clear_lines g).1.length = 20 := by
    rw [clear_lines]
    omega
  have hnofull' : ∀ r ∈ (clear_lines g).1, rowFull r = false := by
    intro r hr
    obtain ⟨j, hj, hval⟩ := List.mem_iff_getElem.1 hr
    have : (clear_lines g).1.getD j [] = r := by
      rw [List.getD_eq_getElem _ _ hj, hval]
    rw [← this]
    exact hnofull j (by omega)
  refine ⟨hnofull', ?_, hlen20, ?_⟩
  · rw [clear_lines]
    apply clearFrom_no_full
    intro j hj
    have hjlen : j < (clear_lines g).1.length := by omega
    rw [List.getD_eq_getElem _ _ hjlen]
    exact hnofull' _ (List.getElem_mem hjlen)
  · intro r hr
    rcases hmem r hr with hr' | hr'
    · exact hw r hr'
    · rw [hr']
      rfl

/-- Witness for C10: the theorem applied to a concrete board (the rows-3-7
board of C3's witness), with the conclusions evaluated. -/
theorem c10_clear_lines_witness :
    (∀ r ∈ (clear_lines (List.replicate 20 fullRow10)).1,
      rowFull r = false) ∧
    clear_lines (clear_lines (List.replicate 20 fullRow10)).1 =
      ((clear_lines (List.replicate 20 fullRow10)).1, 0) ∧
    (clear_lines (List.replicate 20 fullRow10)).1.length = 20 ∧
    (∀ r ∈ (clear_lines (List.replicate 20 fullRow10)).1, r.length = 10) :=
  c10_clear_lines_complete (List.replicate 20 fullRow10) (by decide)
    (fun r hr => by
      rw [List.eq_of_mem_replicate hr]
      rfl)

/-! ### C7: hard_drop drops to the lowest reachable row and locks once -/

/-- Validity of a downward step for the piece placed at origin row `y`. -/
def validAt (g : Grid) (p : Tetromino) (y : Int) : Bool :=
  valid_move g { p with y := y } 0 1

theorem validAt_self (g : Grid) (p : Tetromino) :
    validAt g p p.y = valid_move g p 0 1 := rfl

theorem validAt_update (g : Grid) (p : Tetromino) (w z : Int) :
    validAt g { p with y := w } z = validAt g p z := rfl

theorem dropLoop_zero (g : Grid) (p : Tetromino) : dropLoop g p 0 = p.y := rfl

theorem dropLoop_succ (g : Grid) (p : Tetromino) (f : Nat) :
    dropLoop g p (f + 1) =
      if valid_move g p 0 1 then dropLoop g { p with y := p.y + 1 } f
      else p.y := rfl

/-- Every rotation state of every real piece has an occupied cell (within
the 4x4 bounding box). -/
theorem current_shape_occupied (p : Tetromino) (hrot : p.rotation < 4) :
    ∃ r, r < 4 ∧ ∃ c, c < 4 ∧ ((current_shape p).getD r []).getD c 0 ≠ 0 := by
  obtain ⟨x, y, k, rot⟩ := p
  simp only at hrot
  dsimp only [current_shape]
  interval_cases rot <;> cases k <;> decide

/-- A placement whose occupied cell ends below the bottom row is invalid. -/
theorem valid_move_false_of_bottom (g : Grid) (p : Tetromino) (dx dy : Int)
    (r c : Nat) (hocc : ((current_shape p).getD r []).getD c 0 ≠ 0)
    (hy : (ROWS : Int) ≤ p.y + dy + (r : Int)) :
    valid_move g p dx dy = false := by
  rw [valid_move_false_iff]
  exact ⟨r, c, hocc, Or.inr (Or.inr (Or.inl hy))⟩

/-- Within the fuel budget of `hard_drop` there is always a blocked row:
the piece cannot descend below the board. -/
theorem drop_hits_bottom (g : Grid) (p : Tetromino) (hrot : p.rotation < 4) :
    ∃ m : Nat, m ≤ (20 - p.y).toNat ∧
      validAt g p (p.y + (m : Int)) = false := by
  obtain ⟨r, hr, c, hc, hocc⟩ := current_shape_occupied p hrot
  refine ⟨(19 - p.y).toNat, by omega, ?_⟩
  have hy : (ROWS : Int) ≤ p.y + ((19 - p.y).toNat : Int) + 1 + (r : Int) := by
    have hR : (ROWS : Int) = 20 := rfl
    omega
  exact valid_move_false_of_bottom g
    { p with y := p.y + ((19 - p.y).toNat : Int) } 0 1 r c hocc hy

/-- The fuelled drop loop reaches the first row from which a further
descent is invalid, provided some such row exists within the fuel. -/
theorem dropLoop_least (fuel : Nat) :
    ∀ (g : Grid) (p : Tetromino),
      (∃ m : Nat, m ≤ fuel ∧ validAt g p (p.y + (m : Int)) = false) →
      ∃ n : Nat, n ≤ fuel ∧ dropLoop g p fuel = p.y + (n : Int) ∧
        validAt g p (p.y + (n : Int)) = false ∧
        ∀ m : Nat, m < n → validAt g p (p.y + (m : Int)) = true := by
  induction fuel with
  | zero =>
    rintro g p ⟨m, hm, hf⟩
    refine ⟨0, Nat.le_refl 0, by simp [dropLoop_zero], ?_,
      fun m' hm' => by omega⟩
    have hm0 : m = 0 := by omega
    subst hm0
    exact hf
  | succ f ih =>
    rintro g p ⟨m, hm, hf⟩
    by_cases hv : valid_move g p 0 1 = true
    · have hm0 : m ≠ 0 := by
        intro h0
        subst h0
        rw [show p.y + ((0 : Nat) : Int) = p.y by simp, validAt_self, hv]
          at hf
        simp at hf
      obtain ⟨m', rfl⟩ : ∃ m', m = m' + 1 := ⟨m - 1, by omega⟩
      have hstep : ({ p with y := p.y + 1 } : Tetromino).y = p.y + 1 := rfl
      have hf' : validAt g { p with y := p.y + 1 }
          (({ p with y := p.y + 1 } : Tetromino).y + (m' : Int)) = false := by
        rw [validAt_update, hstep,
          show p.y + 1 + (m' : Int) = p.y + ((m' + 1 : Nat) : Int) by
            push_cast; ring]
        exact hf
      obtain ⟨n', hn', heq, hinv, hall⟩ :=
        ih g { p with y := p.y + 1 } ⟨m', by omega, hf'⟩
      refine ⟨n' + 1, by omega, ?_, ?_, ?_⟩
      · rw [dropLoop_succ, if_pos hv, heq, hstep]
        push_cast
        ring
      · rw [validAt_update, hstep] at hinv
        rw [show p.y + ((n' + 1 : Nat) : Int) = p.y + 1 + (n' : Int) by
          push_cast; ring]
        exact hinv
      · intro m'' hm''
        cases m'' with
        | zero =>
          rw [show p.y + ((0 : Nat) : Int) = p.y by simp, validAt_self]
          exact hv
        | succ m3 =>
          have hm3 := hall m3 (by omega)
          rw [validAt_update, hstep] at hm3
          rw [show p.y + ((m3 + 1 : Nat) : Int) = p.y + 1 + (m3 : Int) by
            push_cast; ring]
          exact hm3
    · refine ⟨0, by omega, by rw [dropLoop_succ, if_neg hv]; simp, ?_,
        fun m' hm' => by omega⟩
      rw [show p.y + ((0 : Nat) : Int) = p.y by simp, validAt_self]
      simpa using hv

/-- C7 counterexample: a board with a single filled cell at row 5, column 4
(an overhang) and an O piece at `(x, y) = (4, 0)`.  `hard_drop` locks the
piece at origin row 3, the first collision from above, even though the
placement at origin row 18 — below the overhang — is also valid; so the
locked row is NOT the largest `y` with a valid placement. -/
def overhangState : TetrisState :=
  { grid := (List.replicate 20 emptyRow).set 5 (emptyRow.set 4 1)
    cur := { x := 4, y := 0, shape := .O, rotation := 0 }
    next := mkPiece .O
    score := 0
    level := 1
    fall_speed := 1000
    game_over := false }

/-- C7 counterexample theorem: the drop loop stops at row 3 and the lock is
issued there, yet row 18 is a valid placement and `3 < 18`. -/
theorem c7_hard_drop_counterexample :
    dropLoop overhangState.grid overhangState.cur
        ((20 - overhangState.cur.y).toNat) = 3 ∧
    hard_drop overhangState .O =
      lock_piece { overhangState with
        cur := { overhangState.cur with y := 3 } } .O ∧
    valid_move overhangState.grid { overhangState.cur with y := 18 } 0 0 =
      true ∧
    (3 : Int) < 18 := by
  refine ⟨by decide, by decide, by decide, by decide⟩

/-- C7 amended: for every state whose current piece is a real piece (its
rotation index is in `[0, 4)`) and has at least one valid position,
`hard_drop` terminates and equals a single `lock_piece` call at origin row
`y0 + n`, where `n` is least with the downward step from `y0 + n` invalid:
the lowest row REACHABLE from the current position by successive valid
one-row descents (not necessarily the globally largest valid row — see the
counterexample).  No score is awarded for the drop itself: the whole effect
is that one lock. -/
theorem c7_hard_drop_lowest_reachable (s : TetrisState) (k : PieceKind)
    (hrot : s.cur.rotation < 4)
    (hpos : ∃ y' : Int, valid_move s.grid { s.cur with y := y' } 0 0 = true) :
    ∃ n : Nat,
      hard_drop s k =
        lock_piece { s with cur := { s.cur with y := s.cur.y + (n : Int) } }
          k ∧
      validAt s.grid s.cur (s.cur.y + (n : Int)) = false ∧
      ∀ m : Nat, m < n → validAt s.grid s.cur (s.cur.y + (m : Int)) = true := by
  obtain ⟨n, hn, heq, hinv, hall⟩ :=
    dropLoop_least ((20 - s.cur.y).toNat) s.grid s.cur
      (drop_hits_bottom s.grid s.cur hrot)
  refine ⟨n, ?_, hinv, hall⟩
  unfold hard_drop
  rw [heq]

/-- Witness for C7 amended: the theorem applied to a fresh game with an I
piece. -/
theorem c7_hard_drop_witness :
    ∃ n : Nat,
      hard_drop (initState .I .O) .T =
        lock_piece { initState .I .O with
          cur := { (initState .I .O).cur with
            y := (initState .I .O).cur.y + (n : Int) } } .T ∧
      validAt (initState .I .O).grid (initState .I .O).cur
        ((initState .I .O).cur.y + (n : Int)) = false ∧
      ∀ m : Nat, m < n →
        validAt (initState .I .O).grid (initState .I .O).cur
          ((initState .I .O).cur.y + (m : Int)) = true :=
  c7_hard_drop_lowest_reachable (initState .I .O) .T (by decide)
    ⟨0, by decide⟩

/-! ### C9: behaviour of commands in a game-over state -/

/-- A game-over state used by the C9 counterexample and witness. -/
def gameOverState : TetrisState := { initState .O .O with game_over := true }

/-- C9 counterexample: the controller methods themselves are NOT guarded by
the game-over flag: `move_horizontal` on a game-over state moves the piece,
so the claimed no-op property of the operations is false. -/
theorem c9_gameover_counterexample :
    gameOverState.game_over = true ∧
    (move_horizontal gameOverState (-1)).cur.x ≠ gameOverState.cur.x := by
  refine ⟨rfl, by decide⟩

/-- C9 amended: the no-op behaviour lives in the main loop, not in the
operations: when the game-over flag is set, a key press never dispatches to
`move_horizontal`, `move_down`, `hard_drop` or `game_rotate` — it resets
the game to a fresh initial state instead.  The operations themselves, if
called directly on a game-over state, can still mutate it (see the
counterexample). -/
theorem c9_gameover_key_resets (s : TetrisState) (key : Key)
    (k1 k2 kd : PieceKind) (h : s.game_over = true) :
    handle_keydown s key k1 k2 kd = initState k1 k2 := by
  unfold handle_keydown
  rw [if_pos h]

/-- Witness for C9 amended: a left-arrow press on a concrete game-over
state resets the game. -/
theorem c9_gameover_key_witness :
    handle_keydown gameOverState .left .I .J .T = initState .I .J :=
  c9_gameover_key_resets gameOverState .left .I .J .T rfl

/-! ### C8: the no-overlap invariant fails on spawn; column bounds hold -/

/-- Ten consecutive hard drops of O pieces from a fresh game: they stack in
columns 3-4 and fill those columns to the top without ever setting the
game-over flag. -/
def oDropState : Nat → TetrisState
  | 0 => initState .O .O
  | n + 1 => hard_drop (oDropState n) .O

theorem oDrop_reachable_10 : Reachable (oDropState 10) := by
  have h0 : Reachable (oDropState 0) := Reachable.init .O .O
  have h1 : Reachable (oDropState 1) := Reachable.space .O h0 (by decide)
  have h2 : Reachable (oDropState 2) := Reachable.space .O h1 (by decide)
  have h3 : Reachable (oDropState 3) := Reachable.space .O h2 (by decide)
  have h4 : Reachable (oDropState 4) := Reachable.space .O h3 (by decide)
  have h5 : Reachable (oDropState 5) := Reachable.space .O h4 (by decide)
  have h6 : Reachable (oDropState 6) := Reachable.space .O h5 (by decide)
  have h7 : Reachable (oDropState 7) := Reachable.space .O h6 (by decide)
  have h8 : Reachable (oDropState 8) := Reachable.space .O h7 (by decide)
  have h9 : Reachable (oDropState 9) := Reachable.space .O h8 (by decide)
  exact Reachable.space .O h9 (by decide)

/-- C8 counterexample: after ten O hard-drops the game is not over, yet the
freshly promoted current piece overlaps a filled board cell (occupied shape
cell `(0,0)`, absolute position row 0, column 3): spawn/promotion performs
no collision check, so the claimed invariant is false in a reachable
state. -/
theorem c8_overlap_counterexample :
    Reachable (oDropState 10) ∧
    (oDropState 10).game_over = false ∧
    ((current_shape (oDropState 10).cur).getD 0 []).getD 0 0 ≠ 0 ∧
    0 ≤ (oDropState 10).cur.y + ((0 : Nat) : Int) ∧
    ((oDropState 10).grid.getD
        ((oDropState 10).cur.y + ((0 : Nat) : Int)).toNat []).getD
      ((oDropState 10).cur.x + ((0 : Nat) : Int)).toNat 0 ≠ 0 := by
  exact ⟨oDrop_reachable_10, by decide, by decide, by decide, by decide⟩

/-- Horizontal bounds for the occupied cells of a piece. -/
def ColsOK (p : Tetromino) : Prop :=
  ∀ r c : Nat, ((current_shape p).getD r []).getD c 0 ≠ 0 →
    0 ≤ p.x + (c : Int) ∧ p.x + (c : Int) < 10

/-- A piece as produced by `new_piece`: at the spawn column, unrotated. -/
def SpawnLike (p : Tetromino) : Prop := p.x = 3 ∧ p.rotation = 0

/-- The induction invariant for reachable states: the current piece is in
horizontal bounds while the game runs, the next piece is spawn-shaped, and
the current rotation index is in range. -/
def StateInv (s : TetrisState) : Prop :=
  (s.game_over = false → ColsOK s.cur) ∧ SpawnLike s.next ∧
    s.cur.rotation < 4

theorem spawnLike_mkPiece (k : PieceKind) : SpawnLike (mkPiece k) :=
  ⟨rfl, rfl⟩

theorem getD_length_le (l : List (List Nat)) (r w : Nat)
    (h : ∀ row ∈ l, row.length ≤ w) : (l.getD r []).length ≤ w := by
  by_cases hr : r < l.length
  · rw [List.getD_eq_getElem _ _ hr]
    exact h _ (List.getElem_mem hr)
  · rw [List.getD_eq_default _ _ (by omega)]
    exact Nat.zero_le w

theorem shapes_width_le (k : PieceKind) : ∀ row ∈ SHAPES k, row.length ≤ 4 := by
  cases k <;> decide

theorem colsOK_of_spawnLike (p : Tetromino) (h : SpawnLike p) : ColsOK p := by
  obtain ⟨hx, hrot⟩ := h
  intro r c hocc
  have hcur : current_shape p = SHAPES p.shape := by
    unfold current_shape
    rw [hrot]
    rfl
  rw [hcur] at hocc
  have hc : c < ((SHAPES p.shape).getD r []).length :=
    getD_ne_default_imp_lt _ _ _ hocc
  have hw := getD_length_le (SHAPES p.shape) r 4 (shapes_width_le p.shape)
  rw [hx]
  omega

theorem colsOK_of_valid_shift (g : Grid) (p : Tetromino) (dx : Int)
    (h : valid_move g p dx 0 = true) :
    ColsOK { p with x := p.x + dx } := by
  intro r c hocc
  obtain ⟨h1, h2, _, _⟩ := (valid_move_true_iff g p dx 0).1 h r c hocc
  have hC : (COLUMNS : Int) = 10 := rfl
  show 0 ≤ p.x + dx + (c : Int) ∧ p.x + dx + (c : Int) < 10
  omega

theorem colsOK_of_valid_self (g : Grid) (p : Tetromino)
    (h : valid_move g p 0 0 = true) : ColsOK p := by
  intro r c hocc
  obtain ⟨h1, h2, _, _⟩ := (valid_move_true_iff g p 0 0).1 h r c hocc
  have hC : (COLUMNS : Int) = 10 := rfl
  constructor <;> omega

theorem stateInv_lock (s : TetrisState) (k : PieceKind) (h : StateInv s) :
    StateInv (lock_piece s k) := by
  unfold lock_piece
  rcases hres : lockRows s.grid (current_shape s.cur) s.cur.y s.cur.x 0
      (COLORS s.cur.shape) with ⟨g, b⟩
  cases b
  · dsimp only
    refine ⟨fun _ => colsOK_of_spawnLike s.next h.2.1, spawnLike_mkPiece k,
      ?_⟩
    have hnr : s.next.rotation = 0 := h.2.1.2
    show s.next.rotation < 4
    omega
  · dsimp only
    exact ⟨fun hgo => absurd hgo (by simp), h.2.1, h.2.2⟩

theorem stateInv_move_horizontal (s : TetrisState) (dx : Int)
    (h : StateInv s) : StateInv (move_horizontal s dx) := by
  unfold move_horizontal
  split
  next hv =>
    exact ⟨fun _ => colsOK_of_valid_shift s.grid s.cur dx hv, h.2.1, h.2.2⟩
  next => exact h

theorem stateInv_move_down (s : TetrisState) (k : PieceKind)
    (h : StateInv s) : StateInv (move_down s k) := by
  unfold move_down
  split
  next hv =>
    exact ⟨fun hgo => fun r c hocc => h.1 hgo r c hocc, h.2.1, h.2.2⟩
  next => exact stateInv_lock s k h

theorem stateInv_hard_drop (s : TetrisState) (k : PieceKind)
    (h : StateInv s) : StateInv (hard_drop s k) := by
  unfold hard_drop
  dsimp only
  apply stateInv_lock
  exact ⟨fun hgo => fun r c hocc => h.1 hgo r c hocc, h.2.1, h.2.2⟩

theorem stateInv_rotate (s : TetrisState) (h : StateInv s) :
    StateInv (game_rotate s) := by
  unfold game_rotate
  dsimp only
  split
  next hv =>
    exact ⟨fun _ => colsOK_of_valid_self s.grid (piece_rotate s.cur) hv,
      h.2.1, Nat.mod_lt _ (by decide)⟩
  next => exact h

theorem stateInv_init (k1 k2 : PieceKind) : StateInv (initState k1 k2) :=
  ⟨fun _ => colsOK_of_spawnLike (mkPiece k1) (spawnLike_mkPiece k1),
   spawnLike_mkPiece k2, Nat.lt_of_lt_of_le Nat.zero_lt_one (by omega)⟩

theorem stateInv_reachable (s : TetrisState) (h : Reachable s) :
    StateInv s := by
  induction h with
  | init k1 k2 => exact stateInv_init k1 k2
  | left _ _ ih => exact stateInv_move_horizontal _ _ ih
  | right _ _ ih => exact stateInv_move_horizontal _ _ ih
  | down k _ _ ih => exact stateInv_move_down _ k ih
  | up _ _ ih => exact stateInv_rotate _ ih
  | space k _ _ ih => exact stateInv_hard_drop _ k ih
  | reset k1 k2 _ _ _ => exact stateInv_init k1 k2

/-- C8 amended: in every reachable state with the game-over flag false,
every occupied cell of the current piece has its column inside `[0, 10)`.
The no-overlap half of the claimed invariant is FALSE: spawning and
promotion after a lock perform no collision check, so the fresh current
piece can overlap filled cells (see the counterexample). -/
theorem c8_reachable_columns_in_bounds (s : TetrisState)
    (hs : Reachable s) (hgo : s.game_over = false) :
    ∀ r c : Nat, ((current_shape s.cur).getD r []).getD c 0 ≠ 0 →
      0 ≤ s.cur.x + (c : Int) ∧ s.cur.x + (c : Int) < 10 :=
  (stateInv_reachable s hs).1 hgo

/-- Witness for C8 amended: the freshly spawned T piece of an initial state
has its occupied cell `(0, 1)` inside the horizontal bounds. -/
theorem c8_columns_witness :
    0 ≤ (initState .T .O).cur.x + ((1 : Nat) : Int) ∧
      (initState .T .O).cur.x + ((1 : Nat) : Int) < 10 :=
  c8_reachable_columns_in_bounds (initState .T .O) (Reachable.init .T .O)
    rfl 0 1 (by decide)

end PyTetris
